import Mathlib

/-!
Verification of the numeric core of the Operon symbolic-regression
framework: the batched tree interpreter (`Evaluate`), its non-finite
sanitization pass (`MinMax` / `LimitToRange`), the coefficient optimizer
(`Optimize`) and the fitness evaluators (NMSE and one-minus-R-squared).

Modelling conventions.
The scalar type `T` of the C++ template is modelled as `Option ℚ`: a value
`some q` is a finite scalar and `none` stands for any non-finite scalar
(NaN or an infinity).  Arithmetic is exact (no rounding or overflow);
division by zero yields `none`, matching the IEEE rule that a finite value
divided by zero is non-finite.  The transcendental primitives
(log, exp, sin, cos, tan, sqrt, cbrt) have no exact rational counterpart,
so they are abstracted into a record `RealOps` of elementwise functions
`ℚ → Option ℚ`; every theorem quantifies over this record, so nothing
depends on their concrete behaviour.

The Eigen scratch matrix is modelled per batch: a column of node `i` is the
list of its values for the `remainingRows` rows of the current batch.  The
source writes full 64-row columns but only the first `remainingRows`
entries ever reach the output buffer (variable columns overwrite exactly
that prefix and the final copy takes exactly that prefix), so the
prefix-length model is observationally identical.  The C++ for-loop
`for (row = 0; row < numRows; row += BATCHSIZE)` is modelled as a map over
the list of its iterations (`batchList`).
-/

namespace Operon

/-- Finite-or-non-finite scalar: `some q` is finite, `none` is NaN or ±∞. -/
abbrev V : Type := Option ℚ

/-- `BATCHSIZE` from the source (`constexpr gsl::index BATCHSIZE = 64`). -/
def BATCHSIZE : Nat := 64

/-- `Operon::Numeric::Max<T>` (largest finite scalar, float32 maximum). -/
def NumericMax : ℚ := (2 ^ 24 - 1) * 2 ^ 104

/-- `Operon::Numeric::Min<T>` (lowest finite scalar).  Modelled from the
spec: the numeric-limits header is not among the sources; §4.1 uses
`(MaxT + MinT)/2` as the all-non-finite midrange, so `Min` is the lowest
value, the negation of the maximum. -/
def NumericMin : ℚ := -NumericMax

/-- Node tags, the closed `NodeType` set of the source switch. -/
inductive NodeType
  | Add | Mul | Sub | Div
  | Log | Exp | Sin | Cos | Tan | Sqrt | Cbrt | Square
  | Constant | Variable
  deriving DecidableEq, Repr

/-- `Operon::Node` with the fields used by the core
(`Type, Arity, Length, Depth, Value, HashValue`; field names are
lower-cased because `Type` is reserved in Lean). -/
structure Node where
  type : NodeType
  arity : Nat
  length : Nat
  depth : Nat
  value : ℚ
  hashValue : Nat
  deriving DecidableEq, Repr

/-- Default node used for out-of-range list reads (well-formed trees never
reach it). -/
def nodeDefault : Node := { type := .Constant, arity := 0, length := 0,
                            depth := 0, value := 0, hashValue := 0 }

instance : Inhabited Node := ⟨nodeDefault⟩

/-- `Node::IsConstant`. -/
def Node.IsConstant (n : Node) : Bool := n.type == NodeType.Constant

/-- `Node::IsVariable`. -/
def Node.IsVariable (n : Node) : Bool := n.type == NodeType.Variable

/-- A node that owns one slot of the coefficient vector: a `Constant` or a
`Variable` (§3, coefficient vector). -/
def isCoeff (n : Node) : Bool := n.IsConstant || n.IsVariable

/-- The dataset view: hash-to-column lookup (`Dataset::GetIndex`) and the
column-major value matrix (`Dataset::Values()`, `values c r` is the entry
of column `c` at row `r`).  Dataset entries are plain finite scalars. -/
structure Dataset where
  getIndex : Nat → Nat
  values : Nat → Nat → ℚ

/-- `Operon::Range`, the half-open row interval `[start, start + size)`. -/
structure Range where
  start : Nat
  size : Nat

/-- Elementwise transcendental primitives of the scalar type, abstracted:
`log` of a negative number or `sqrt` of a negative number may yield a
non-finite result, hence the `Option` codomain. -/
structure RealOps where
  logF : ℚ → V
  expF : ℚ → V
  sinF : ℚ → V
  cosF : ℚ → V
  tanF : ℚ → V
  sqrtF : ℚ → V
  cbrtF : ℚ → V

/-- Elementwise application of a scalar primitive: a non-finite input
stays non-finite (NaN propagates through every libm function). -/
def liftU (f : ℚ → V) (v : V) : V := v.bind f

/-- Addition on scalars: any non-finite operand gives a non-finite
result. -/
def vAdd : V → V → V
  | some a, some b => some (a + b)
  | _, _ => none

/-- Subtraction on scalars. -/
def vSub : V → V → V
  | some a, some b => some (a - b)
  | _, _ => none

/-- Multiplication on scalars. -/
def vMul : V → V → V
  | some a, some b => some (a * b)
  | _, _ => none

/-- Division on scalars; a finite value divided by zero is non-finite. -/
def vDiv : V → V → V
  | some a, some b => if b = 0 then none else some (a / b)
  | _, _ => none

/-- Squaring (`Eigen .square()`), exact on finite scalars. -/
def vSquare : V → V := liftU (fun q => some (q * q))

/-- Per-node record produced by the setup pass of `Evaluate`
(source lines 81-92): a broadcast value for a `Constant` column, the
resolved dataset column (`indices[i]`) for a `Variable`, nothing
otherwise. -/
inductive SetupInfo
  | constV (v : ℚ)
  | varC (c : Nat)
  | other
  deriving DecidableEq, Repr

/-- One step of the setup pass (source lines 83-92): a `Constant` stores
the broadcast value (`parameters[idx]` when parameters are supplied, the
literal `Value` otherwise) and advances the parameter cursor; a `Variable`
resolves its dataset column and advances the cursor; other nodes do
nothing.  The state is the list of per-node records (one per node, the
record of node `i` at position `i`) paired with the cursor `idx`. -/
def setupStep (d : Dataset) (params : Option (List ℚ))
    (st : List SetupInfo × Nat) (n : Node) : List SetupInfo × Nat :=
  if n.IsConstant then
    (st.1 ++ [SetupInfo.constV (match params with
      | none => n.value
      | some ps => ps.getD st.2 0)], st.2 + 1)
  else if n.IsVariable then
    (st.1 ++ [SetupInfo.varC (d.getIndex n.hashValue)], st.2 + 1)
  else
    (st.1 ++ [SetupInfo.other], st.2)

/-- The setup pass over the whole node list, cursor starting at 0. -/
def setupInfos (d : Dataset) (params : Option (List ℚ))
    (nodes : List Node) : List SetupInfo :=
  (nodes.foldl (setupStep d params) ([], 0)).1

/-- Read column `j` of the scratch matrix (a missing column, which only an
ill-formed tree can request, reads as a non-finite column). -/
def colGet (remaining : Nat) (cols : List (List V)) (j : Nat) : List V :=
  cols.getD j (List.replicate remaining none)

/-- The broadcast value of a `Constant` column, set once by the setup
pass. -/
def constColVal (setup : List SetupInfo) (i : Nat) : V :=
  match setup.getD i SetupInfo.other with
  | SetupInfo.constV v => some v
  | _ => none

/-- The dataset column resolved for a `Variable` node by the setup pass
(`indices[i]`). -/
def varColOf (setup : List SetupInfo) (i : Nat) : Nat :=
  match setup.getD i SetupInfo.other with
  | SetupInfo.varC c => c
  | _ => 0

/-- One step of the batched pass, the `switch` of source lines 100-201,
processing node `i` (the index is the number of columns built so far).
Binary operators combine the first child column `i-1` with the second
child column `i-1-1-Length(i-1)`; unary operators map over column `i-1`;
a `Constant` contributes its broadcast column (set during setup) and
advances the parameter cursor; a `Variable` reads its weight
(`parameters[idx]` when parameters are supplied, else the literal `Value`),
advances the cursor, and loads the weighted dataset column segment starting
at row `startRow` (which is `range.Start() + row`). -/
def stepNode (ops : RealOps) (d : Dataset) (params : Option (List ℚ))
    (setup : List SetupInfo) (nodes : List Node) (startRow remaining : Nat)
    (st : List (List V) × Nat) (n : Node) : List (List V) × Nat :=
  let cols := st.1
  let idx := st.2
  let i := cols.length
  let c1 := i - 1
  let c2 := c1 - 1 - (nodes.getD c1 nodeDefault).length
  match n.type with
  | .Add => (cols ++ [List.zipWith vAdd (colGet remaining cols c1)
      (colGet remaining cols c2)], idx)
  | .Mul => (cols ++ [List.zipWith vMul (colGet remaining cols c1)
      (colGet remaining cols c2)], idx)
  | .Sub => (cols ++ [List.zipWith vSub (colGet remaining cols c1)
      (colGet remaining cols c2)], idx)
  | .Div => (cols ++ [List.zipWith vDiv (colGet remaining cols c1)
      (colGet remaining cols c2)], idx)
  | .Log => (cols ++ [(colGet remaining cols c1).map (liftU ops.logF)], idx)
  | .Exp => (cols ++ [(colGet remaining cols c1).map (liftU ops.expF)], idx)
  | .Sin => (cols ++ [(colGet remaining cols c1).map (liftU ops.sinF)], idx)
  | .Cos => (cols ++ [(colGet remaining cols c1).map (liftU ops.cosF)], idx)
  | .Tan => (cols ++ [(colGet remaining cols c1).map (liftU ops.tanF)], idx)
  | .Sqrt => (cols ++ [(colGet remaining cols c1).map (liftU ops.sqrtF)], idx)
  | .Cbrt => (cols ++ [(colGet remaining cols c1).map (liftU ops.cbrtF)], idx)
  | .Square => (cols ++ [(colGet remaining cols c1).map vSquare], idx)
  | .Constant => (cols ++ [List.replicate remaining (constColVal setup i)],
      idx + 1)
  | .Variable =>
      let w : ℚ := match params with
        | none => n.value
        | some ps => ps.getD idx 0
      (cols ++ [(List.range remaining).map
        (fun r => some (w * d.values (varColOf setup i) (startRow + r)))],
       idx + 1)

/-- The batched pass over all nodes for one batch; the parameter cursor is
reset to 0 at the start of the batch (source line 98). -/
def batchColumns (ops : RealOps) (d : Dataset) (params : Option (List ℚ))
    (setup : List SetupInfo) (nodes : List Node)
    (startRow remaining : Nat) : List (List V) × Nat :=
  nodes.foldl (stepNode ops d params setup nodes startRow remaining) ([], 0)

/-- The output of one batch: the last column of the scratch matrix,
holding the root values (source line 203). -/
def batchOutput (ops : RealOps) (d : Dataset) (params : Option (List ℚ))
    (setup : List SetupInfo) (nodes : List Node)
    (startRow remaining : Nat) : List V :=
  colGet remaining
    (batchColumns ops d params setup nodes startRow remaining).1
    (nodes.length - 1)

/-- Number of iterations of the batch loop
`for (row = 0; row < numRows; row += BATCHSIZE)`. -/
def numBatches (numRows : Nat) : Nat :=
  (numRows + BATCHSIZE - 1) / BATCHSIZE

/-- The iterations of the batch loop as a list of pairs
`(row, remainingRows)` with `remainingRows = min BATCHSIZE (numRows - row)`
(source lines 97-99). -/
def batchList (numRows : Nat) : List (Nat × Nat) :=
  (List.range (numBatches numRows)).map
    (fun k => (k * BATCHSIZE, min BATCHSIZE (numRows - k * BATCHSIZE)))

/-- The raw evaluation result before sanitization: the concatenation of
the per-batch root segments, covering exactly `range.size` rows. -/
def rawEvaluate (ops : RealOps) (nodes : List Node) (d : Dataset)
    (rg : Range) (params : Option (List ℚ)) : List V :=
  let setup := setupInfos d params nodes
  (batchList rg.size).flatMap
    (fun b => batchOutput ops d params setup nodes (rg.start + b.1) b.2)

/-- One step of `MinMax` (source lines 42-49): skip non-finite values,
lower the running minimum, raise the running maximum. -/
def minMaxStep (p : ℚ × ℚ) (v : V) : ℚ × ℚ :=
  match v with
  | none => p
  | some q => (if p.1 > q then q else p.1, if p.2 < q then q else p.2)

/-- `MinMax` (source lines 36-51): the extremes of the finite values,
starting from `(Numeric::Max, Numeric::Min)`. -/
def MinMax (values : List V) : ℚ × ℚ :=
  values.foldl minMaxStep (NumericMax, NumericMin)

/-- `std::clamp(v, lo, hi)`. -/
def clampQ (q lo hi : ℚ) : ℚ := if q < lo then lo else if hi < q then hi else q

/-- `LimitToRange` (source lines 53-64): every finite value is clamped to
`[lo, hi]` and every non-finite value is replaced by the midpoint
`(lo + hi) / 2`. -/
def LimitToRange (values : List V) (lo hi : ℚ) : List V :=
  values.map (fun v => match v with
    | some q => some (clampQ q lo hi)
    | none => some ((lo + hi) / 2))

/-- The sanitization post-pass of `Evaluate` (source lines 205-207). -/
def sanitize (values : List V) : List V :=
  LimitToRange values (MinMax values).1 (MinMax values).2

/-- `Evaluate<T>(tree, dataset, range, parameters)` (source lines 66-208):
setup pass, batched pass, then non-finite sanitization. -/
def Evaluate (ops : RealOps) (nodes : List Node) (d : Dataset) (rg : Range)
    (params : Option (List ℚ)) : List V :=
  sanitize (rawEvaluate ops nodes d rg params)

/-- Modelled from the spec: `Tree::GetCoefficients` (tree.hpp is not among
the sources).  §3: the coefficient vector holds one scalar per `Constant`
node and one per `Variable` node (the variable weight), in traversal
order. -/
def GetCoefficients (nodes : List Node) : List ℚ :=
  (nodes.filter isCoeff).map (fun n => n.value)

/-- Modelled from the spec: `Tree::SetCoefficients` (tree.hpp is not among
the sources).  §4.3 step 6: write the coefficient vector back into the
`Constant` and `Variable` values in the same traversal order; every other
field and every other node is untouched. -/
def setCoefficientsGo : List Node → List ℚ → List Node
  | [], _ => []
  | n :: rest, cs =>
      if isCoeff n then
        { n with value := cs.getD 0 n.value } :: setCoefficientsGo rest (cs.drop 1)
      else
        n :: setCoefficientsGo rest cs

/-- Modelled from the spec: see `setCoefficientsGo`. -/
def SetCoefficients (nodes : List Node) (coef : List ℚ) : List Node :=
  setCoefficientsGo nodes coef

/-- The solver summary (`ceres::Solver::Summary`); only the per-iteration
record is observable through the callers in the sources
(`summary.iterations.size()`), so the model keeps just that list.  A
default-constructed summary has no iterations. -/
structure SolverSummary where
  iterations : List ℚ := []
  deriving DecidableEq, Repr

/-- The configured `ceres::Solver::Options` of `Optimize`
(source lines 275-279). -/
structure SolverOptions where
  maxNumIterations : ℤ
  denseQR : Bool
  minimizerProgressToStdout : Bool
  numThreads : Nat
  deriving DecidableEq, Repr

/-- Conversion of a `size_t` value to the C `int` field
`Options::max_num_iterations`: keep the low 32 bits and read them as a
two-complement signed integer. -/
def toInt32 (n : Nat) : ℤ :=
  if n % 2 ^ 32 < 2 ^ 31 then (n % 2 ^ 32 : ℤ) else (n % 2 ^ 32 : ℤ) - 2 ^ 32

/-- The options configured by `Optimize` (source lines 275-279):
`options.max_num_iterations = iterations - 1` where `iterations` has type
`size_t`, so the subtraction wraps modulo `2^64` before the narrowing
conversion to `int`; dense-QR linear solver; one thread. -/
def solverOptions (iterations : Nat) (report : Bool) : SolverOptions :=
  { maxNumIterations := toInt32 ((iterations + (2 ^ 64 - 1)) % 2 ^ 64)
    denseQR := true
    minimizerProgressToStdout := report
    numThreads := 1 }

/-- `Optimize` (source lines 239-293).  The external trust-region driver
(`ceres::Solve` acting on the residual functor built from the tree,
dataset, target and range) is abstracted as `solve`, which receives the
initial coefficient vector and returns the updated vector together with
the summary; every theorem below quantifies over it.  The protocol of the
source: default-construct the summary, extract the coefficients, return
immediately when there are none; otherwise run the solver and, only when
`writeCoefficients` is set, write the updated vector back into the tree.
The result pairs the summary with the (possibly updated) tree. -/
def Optimize (solve : List ℚ → List ℚ × SolverSummary) (nodes : List Node)
    (writeCoefficients : Bool) : SolverSummary × List Node :=
  let coef := GetCoefficients nodes
  if coef.isEmpty then
    ({}, nodes)
  else
    let r := solve coef
    (r.2, if writeCoefficients then SetCoefficients nodes r.1 else nodes)

/-- The tail of `NormalizedMeanSquaredErrorEvaluator::operator()`
(evaluator.hpp lines 55-59): the NMSE value, replaced by `Numeric::Max`
when it is not finite. -/
def nmseFitness (nmse : V) : ℚ :=
  match nmse with
  | some q => q
  | none => NumericMax

/-- `RSquaredEvaluator::LowerBound`. -/
def RSquaredLowerBound : ℚ := 0

/-- `RSquaredEvaluator::UpperBound`. -/
def RSquaredUpperBound : ℚ := 1

/-- The tail of `RSquaredEvaluator::operator()` (evaluator.hpp lines
96-101): the raw squared correlation, set to 0 when not finite; the
statement `std::clamp(r2, LowerBound, UpperBound);` on line 100 discards
its return value, so no clamping takes place; the returned fitness is
`UpperBound - r2 + LowerBound`. -/
def rsquaredFitness (r2 : V) : ℚ :=
  let r : ℚ := match r2 with
    | some q => q
    | none => 0
  RSquaredUpperBound - r + RSquaredLowerBound

/-- The spec version of the same computation, for comparison:
`1 - clamp(r2, 0, 1)` (§4.4). -/
def rsquaredFitnessSpec (r2 : V) : ℚ :=
  let r : ℚ := match r2 with
    | some q => q
    | none => 0
  RSquaredUpperBound - clampQ r RSquaredLowerBound RSquaredUpperBound

/-- Number of parameter-buffer reads performed by the setup pass of
`Evaluate`: source line 85 reads `parameters[idx]` once per `Constant`
node, and only when `parameters` is not null (`Variable` nodes read no
parameter during setup). -/
def setupParamReads (params : Option (List ℚ)) (nodes : List Node) : Nat :=
  match params with
  | none => 0
  | some _ => nodes.countP (fun n => n.IsConstant)

/-- Number of parameter-buffer reads performed by one batch of the batched
pass: source line 192 reads `parameters[idx]` once per `Variable` node,
and only when `parameters` is not null. -/
def batchParamReads (params : Option (List ℚ)) (nodes : List Node) : Nat :=
  match params with
  | none => 0
  | some _ => nodes.countP (fun n => n.IsVariable)

/-- Total number of parameter-buffer reads of one `Evaluate` call: the
setup reads plus the per-batch reads of every iteration of the batch
loop. -/
def evaluateParamReads (params : Option (List ℚ)) (nodes : List Node)
    (numRows : Nat) : Nat :=
  setupParamReads params nodes + numBatches numRows * batchParamReads params nodes

/-- Number of dataset-column segment reads of one `Evaluate` call: source
line 193 reads a column segment once per `Variable` node per batch;
`GetIndex` (a hash-map lookup, not a column read) is not counted. -/
def evaluateColumnReads (nodes : List Node) (numRows : Nat) : Nat :=
  numBatches numRows * nodes.countP (fun n => n.IsVariable)

/-! Concrete instances used by the end-to-end scenarios and by witnesses. -/

/-- A trivial instantiation of the transcendental primitives (they are
irrelevant to the concrete scenarios below, which use no unary node). -/
def opsNone : RealOps :=
  { logF := fun _ => none, expF := fun _ => none, sinF := fun _ => none,
    cosF := fun _ => none, tanF := fun _ => none, sqrtF := fun _ => none,
    cbrtF := fun _ => none }

/-- A dataset with column 0 holding `x = [5, 5, 5, ...]` and column 1
holding `y = [1, 2, 3, 3, ...]`; variable hashes coincide with column
indices. -/
def demoDataset : Dataset :=
  { getIndex := fun h => h
    values := fun c r =>
      if c = 0 then 5 else if r = 0 then 1 else if r = 1 then 2 else 3 }

/-- The `Variable(y, weight 1)` leaf (hash 1, dataset column 1). -/
def varY : Node :=
  { type := .Variable, arity := 0, length := 0, depth := 1, value := 1,
    hashValue := 1 }

/-- The `Variable(x, weight 1)` leaf (hash 0, dataset column 0). -/
def varX : Node :=
  { type := .Variable, arity := 0, length := 0, depth := 1, value := 1,
    hashValue := 0 }

/-- The binary `Sub` root of a three-node tree. -/
def subRoot : Node :=
  { type := .Sub, arity := 2, length := 2, depth := 2, value := 0,
    hashValue := 0 }

/-- The postfix encoding of `Sub(Variable(x,1), Variable(y,1))`: the root
is last and its first operand (`x`) sits immediately before it at index
`i - 1`, so the `y` leaf comes first. -/
def treeSubXY : List Node := [varY, varX, subRoot]

/-- A `Constant` leaf with literal value 7. -/
def constSeven : Node :=
  { type := .Constant, arity := 0, length := 0, depth := 1, value := 7,
    hashValue := 0 }

/-- A `Constant` leaf with literal value 0. -/
def constZero : Node :=
  { type := .Constant, arity := 0, length := 0, depth := 1, value := 0,
    hashValue := 0 }

/-- A `Constant` leaf with literal value 1. -/
def constOne : Node :=
  { type := .Constant, arity := 0, length := 0, depth := 1, value := 1,
    hashValue := 0 }

/-- The binary `Div` root of a three-node tree. -/
def divRoot : Node :=
  { type := .Div, arity := 2, length := 2, depth := 2, value := 0,
    hashValue := 0 }

/-- The postfix encoding of `Div(Constant(1), Constant(0))`: every row
divides one by zero, so every raw output value is non-finite. -/
def treeDivZero : List Node := [constZero, constOne, divRoot]

/-- A unary `Log` node; a tree made of it alone has no coefficient. -/
def logOnly : Node :=
  { type := .Log, arity := 1, length := 0, depth := 1, value := 0,
    hashValue := 0 }

/-- A two-node tree `[Constant(7), Variable(x,1)]` (not a well-formed
expression, but the cursor invariant is structural and the witness only
inspects the cursor and the variable column). -/
def treeConstVar : List Node := [constSeven, varX]

/-- A concrete abstract solver used by witnesses: it shifts every
coefficient by one and reports a single iteration. -/
def demoSolve (coef : List ℚ) : List ℚ × SolverSummary :=
  (coef.map (fun q => q + 1), { iterations := [1] })

/-- The value of the parameter cursor of the batched pass when node `i` is
about to be processed: the second state component after folding the first
`i` nodes (the cursor starts at 0 at the beginning of every batch). -/
def cursorBeforeNode (ops : RealOps) (d : Dataset) (params : Option (List ℚ))
    (setup : List SetupInfo) (nodes : List Node) (startRow remaining : Nat)
    (i : Nat) : Nat :=
  ((nodes.take i).foldl (stepNode ops d params setup nodes startRow remaining)
    ([], 0)).2

/-- The scratch column of node `i` after the batched pass of one batch. -/
def colOfNode (ops : RealOps) (d : Dataset) (params : Option (List ℚ))
    (setup : List SetupInfo) (nodes : List Node) (startRow remaining : Nat)
    (i : Nat) : List V :=
  (batchColumns ops d params setup nodes startRow remaining).1.getD i []

/-- Structural equality of nodes: every field except `value` agrees. -/
def sameShape (a b : Node) : Prop :=
  a.type = b.type ∧ a.arity = b.arity ∧ a.length = b.length ∧
  a.depth = b.depth ∧ a.hashValue = b.hashValue

/-! Helper lemmas. -/

/-- Reading a dropped list at `j` reads the original at `i + j`. -/
lemma getD_drop (l : List ℚ) (i j : Nat) (dflt : ℚ) :
    (l.drop i).getD j dflt = l.getD (i + j) dflt := by
  simp [List.getD, List.getElem?_drop]

/-- `MinMax` leaves its accumulator untouched on a list of non-finite
values. -/
lemma foldl_minMaxStep_all_none :
    ∀ (l : List V) (p : ℚ × ℚ), (∀ v ∈ l, v = none) →
      l.foldl minMaxStep p = p := by
  intro l
  induction l with
  | nil => intro p _; rfl
  | cons v t ih =>
      intro p h
      have hv : v = none := h v (List.mem_cons_self ..)
      have ht : ∀ w ∈ t, w = none := fun w hw => h w (List.mem_cons_of_mem _ hw)
      simp only [List.foldl_cons, hv, minMaxStep]
      exact ih p ht

/-! Claim C2: the configured iteration cap. -/

/-- C2, counterexample: for `iterations = 0` the configured cap is not the
value `max(0, iterations - 1) = 0` demanded by the claim; the unsigned
subtraction wraps and the narrowing conversion yields `-1`. -/
theorem solver_cap_zero_counterexample :
    ¬ (solverOptions 0 false).maxNumIterations = max 0 ((0 : ℤ) - 1) := by
  decide

/-- C2, amended: `Optimize` configures the cap as the `size_t` value
`iterations - 1` narrowed to a 32-bit int: for `iterations = 0` the cap is
`-1`, and for `1 ≤ iterations < 2^31` it is `iterations - 1`. -/
theorem solver_cap_amended :
    (solverOptions 0 false).maxNumIterations = -1 ∧
    ∀ n : Nat, 1 ≤ n → n < 2 ^ 31 → ∀ r : Bool,
      (solverOptions n r).maxNumIterations = (n : ℤ) - 1 := by
  constructor
  · decide
  · intro n h1 h2 r
    simp only [solverOptions, toInt32]
    have e1 : (n + (2 ^ 64 - 1)) % 2 ^ 64 = n - 1 := by omega
    have e2 : (n - 1) % 2 ^ 32 = n - 1 := by omega
    rw [e1, e2, if_pos (by omega)]
    omega

/-- C2, witness: the amended statement at `iterations = 50`. -/
theorem solver_cap_amended_witness :
    (solverOptions 50 false).maxNumIterations = (50 : ℤ) - 1 :=
  solver_cap_amended.2 50 (by norm_num) (by norm_num) false

/-! Claim C3: the discarded clamp in the R-squared evaluator. -/

/-- C3: the claim says the squared correlation is clamped to `[0, 1]`
before the fitness `1 - r2` is returned, so the fitness always lies in
`[0, 1]`; the source statement `std::clamp(r2, LowerBound, UpperBound);`
discards its return value, so for a raw `r2 = 3/2` the code returns
`-1/2`, below the admissible lower bound, where the spec computation
returns `0`. -/
theorem rsquared_clamp_discarded :
    rsquaredFitness (some (3 / 2)) = -(1 / 2) ∧
    rsquaredFitnessSpec (some (3 / 2)) = 0 ∧
    rsquaredFitness (some (3 / 2)) < RSquaredLowerBound := by
  refine ⟨?_, ?_, ?_⟩ <;>
    norm_num [rsquaredFitness, rsquaredFitnessSpec, clampQ,
      RSquaredLowerBound, RSquaredUpperBound]

/-! Claim C8: non-finite fitness values become the worst admissible
scalar. -/

/-- C8: a non-finite NMSE is replaced by `Numeric::Max`, and a non-finite
squared correlation is treated as 0, so the returned `1 - r2` fitness is
the worst admissible value 1. -/
theorem nonfinite_fitness_worst :
    nmseFitness none = NumericMax ∧ rsquaredFitness none = 1 := by
  constructor
  · rfl
  · norm_num [rsquaredFitness, RSquaredLowerBound, RSquaredUpperBound]

/-! Claim C7: empty coefficient vector. -/

/-- C7: when the tree has no coefficient, `Optimize` returns the
default-constructed (empty) summary and the unchanged tree, for every
abstract solver (so the solver is never invoked) and for both values of
the write-back flag. -/
theorem optimize_empty_summary
    (solve : List ℚ → List ℚ × SolverSummary) (nodes : List Node)
    (writeCoefficients : Bool) (h : GetCoefficients nodes = []) :
    Optimize solve nodes writeCoefficients = ({ iterations := [] }, nodes) := by
  simp [Optimize, h]

/-- C7, witness: a tree consisting of a single `Log` node has no
coefficient, and `Optimize` with the concrete demo solver returns the
empty summary and the unchanged tree. -/
theorem optimize_empty_summary_witness :
    Optimize demoSolve [logOnly] true = ({ iterations := [] }, [logOnly]) :=
  optimize_empty_summary demoSolve [logOnly] true (by rfl)

/-! Claim C1: finiteness of the sanitized output. -/

/-- C1: every entry of the `Evaluate` output is finite: the output is the
raw batched result passed through `LimitToRange` with the `MinMax` pair of
its finite values (non-finite entries become the midpoint, finite entries
are clamped), and when no finite raw value exists every entry equals the
midrange `(Numeric::Max + Numeric::Min) / 2` of the scalar type. -/
theorem evaluate_all_finite (ops : RealOps) (nodes : List Node)
    (d : Dataset) (rg : Range) (params : Option (List ℚ)) :
    (∀ v ∈ Evaluate ops nodes d rg params, ∃ q : ℚ, v = some q) ∧
    Evaluate ops nodes d rg params =
      LimitToRange (rawEvaluate ops nodes d rg params)
        (MinMax (rawEvaluate ops nodes d rg params)).1
        (MinMax (rawEvaluate ops nodes d rg params)).2 ∧
    ((∀ v ∈ rawEvaluate ops nodes d rg params, v = none) →
      ∀ v ∈ Evaluate ops nodes d rg params,
        v = some ((NumericMax + NumericMin) / 2)) := by
  refine ⟨?_, rfl, ?_⟩
  · intro v hv
    simp only [Evaluate, sanitize, LimitToRange, List.mem_map] at hv
    obtain ⟨x, _, hx⟩ := hv
    cases x with
    | none => exact ⟨_, hx.symm⟩
    | some q => exact ⟨_, hx.symm⟩
  · intro h v hv
    have hmm : MinMax (rawEvaluate ops nodes d rg params) =
        (NumericMax, NumericMin) :=
      foldl_minMaxStep_all_none _ _ h
    simp only [Evaluate, sanitize, LimitToRange, hmm, List.mem_map] at hv
    obtain ⟨x, hmem, hx⟩ := hv
    rw [h x hmem] at hx
    exact hx.symm

/-- C1, witness: the tree `Div(Constant(1), Constant(0))` produces a
non-finite value on every row, so the sanitized output is the all-midrange
vector. -/
theorem evaluate_all_finite_witness :
    (∀ v ∈ rawEvaluate opsNone treeDivZero demoDataset ⟨0, 1⟩ none,
        v = none) ∧
    ∀ v ∈ Evaluate opsNone treeDivZero demoDataset ⟨0, 1⟩ none,
      v = some ((NumericMax + NumericMin) / 2) := by
  have hraw : rawEvaluate opsNone treeDivZero demoDataset ⟨0, 1⟩ none =
      [none] := by
    simp +decide only [rawEvaluate, batchList, numBatches, BATCHSIZE,
      setupInfos, setupStep, batchOutput, batchColumns, stepNode, colGet,
      constColVal, varColOf, vDiv, treeDivZero, constZero, constOne,
      divRoot, demoDataset, Node.IsConstant, Node.IsVariable,
      List.range_succ, List.range_zero, List.getD, List.foldl,
      List.flatMap, List.map, List.zipWith, List.append_nil,
      List.nil_append, List.cons_append, List.replicate,
      List.getElem?_cons_zero, List.getElem?_cons_succ, Option.getD]
  have hnone : ∀ v ∈ rawEvaluate opsNone treeDivZero demoDataset ⟨0, 1⟩ none,
      v = none := by
    rw [hraw]; intro v hv; simpa using hv
  exact ⟨hnone,
    (evaluate_all_finite opsNone treeDivZero demoDataset ⟨0, 1⟩ none).2.2 hnone⟩

/-! Claim C4: the concrete subtraction scenario. -/

/-- C4: evaluating the postfix tree `Sub(Variable(x,1), Variable(y,1))`
over three rows of the demo dataset (`x = [5,5,5]`, `y = [1,2,3]`) yields
exactly `[4, 3, 2]`: the `Sub` node at index `i` subtracts the column of
the operand at `i - 1 - Length(i-1) - 1` from the column of the operand at
`i - 1`.  The transcendental primitives are quantified over because no
unary node occurs. -/
theorem evaluate_sub_demo (ops : RealOps) :
    Evaluate ops treeSubXY demoDataset ⟨0, 3⟩ none =
      [some 4, some 3, some 2] := by
  simp +decide only [Evaluate, rawEvaluate, sanitize, batchList, numBatches,
    BATCHSIZE, setupInfos, setupStep, batchOutput, batchColumns, stepNode,
    colGet, varColOf, constColVal, MinMax, minMaxStep, LimitToRange, clampQ,
    vSub, treeSubXY, varY, varX, subRoot, demoDataset, Node.IsConstant,
    Node.IsVariable, List.range_succ, List.range_zero, List.getD,
    List.foldl, List.flatMap, List.map, List.zipWith, List.append_nil,
    List.nil_append, List.cons_append, List.replicate,
    List.getElem?_cons_zero, List.getElem?_cons_succ, Option.getD]
  norm_num [NumericMax, NumericMin]

/-! Claim C9: a range of size 0. -/

/-- C9, counterexample: with a non-null parameter buffer and a tree
holding one `Constant`, an `Evaluate` call over a range of size 0 returns
the empty vector, yet the setup pass still performs one parameter-slot
read (source line 85), contradicting the claim that no parameter slot is
read. -/
theorem evaluate_size0_reads_parameter :
    Evaluate opsNone [constSeven] demoDataset ⟨0, 0⟩ (some [7]) = [] ∧
    ¬ evaluateParamReads (some [7]) [constSeven] 0 = 0 := by
  constructor
  · simp +decide only [Evaluate, rawEvaluate, sanitize, batchList,
      numBatches, BATCHSIZE, MinMax, LimitToRange, List.range_zero,
      List.map, List.flatMap, List.foldl]
  · decide

/-- C9, amended: `Evaluate` over a range of size 0 returns the empty
vector, the batch loop executes zero iterations, no dataset column is
read, and the only parameter-slot reads are the setup-pass reads (one per
`Constant` node when the buffer is non-null); the sanitization pass over
the empty output is a no-op. -/
theorem evaluate_size0_amended (ops : RealOps) (nodes : List Node)
    (d : Dataset) (params : Option (List ℚ)) (start : Nat) :
    Evaluate ops nodes d ⟨start, 0⟩ params = [] ∧
    numBatches 0 = 0 ∧
    evaluateColumnReads nodes 0 = 0 ∧
    evaluateParamReads params nodes 0 = setupParamReads params nodes := by
  have hnb : numBatches 0 = 0 := by decide
  refine ⟨?_, hnb, ?_, ?_⟩
  · simp [Evaluate, rawEvaluate, sanitize, batchList, hnb, MinMax,
      LimitToRange]
  · simp [evaluateColumnReads, hnb]
  · simp [evaluateParamReads, hnb]

/-! Claim C6: the optimizer never modifies the tree structure. -/

/-- Structural equality is reflexive. -/
lemma sameShape_refl (a : Node) : sameShape a a := ⟨rfl, rfl, rfl, rfl, rfl⟩

/-- Writing a coefficient vector back preserves the number of nodes. -/
lemma setCoefficientsGo_length :
    ∀ (l : List Node) (cs : List ℚ),
      (setCoefficientsGo l cs).length = l.length := by
  intro l
  induction l with
  | nil => intro cs; rfl
  | cons n rest ih =>
      intro cs
      by_cases h : isCoeff n <;> simp [setCoefficientsGo, h, ih]

/-- Writing a coefficient vector back preserves every field except the
`value` of coefficient nodes; nodes that own no coefficient are entirely
unchanged. -/
lemma setCoefficientsGo_getD :
    ∀ (l : List Node) (cs : List ℚ) (i : Nat),
      sameShape ((setCoefficientsGo l cs).getD i nodeDefault)
        (l.getD i nodeDefault) ∧
      (isCoeff (l.getD i nodeDefault) = false →
        (setCoefficientsGo l cs).getD i nodeDefault = l.getD i nodeDefault) := by
  intro l
  induction l with
  | nil => intro cs i; exact ⟨sameShape_refl _, fun _ => rfl⟩
  | cons n rest ih =>
      intro cs i
      by_cases h : isCoeff n
      · cases i with
        | zero =>
            simp only [setCoefficientsGo, h, if_pos, List.getD_cons_zero]
            refine ⟨⟨rfl, rfl, rfl, rfl, rfl⟩, ?_⟩
            intro hfalse
            exact absurd hfalse (by decide)
        | succ j =>
            simp only [setCoefficientsGo, h, if_pos, List.getD_cons_succ]
            exact ih (cs.drop 1) j
      · cases i with
        | zero =>
            simp only [setCoefficientsGo, h, if_neg, List.getD_cons_zero]
            exact ⟨sameShape_refl _, fun _ => rfl⟩
        | succ j =>
            simp only [setCoefficientsGo, h, if_neg, List.getD_cons_succ]
            exact ih cs j

/-- C6: `Optimize` never modifies the tree structure: the node count and
every field except the `value` of `Constant` and `Variable` nodes are
preserved for every abstract solver, and when the write-back flag is
cleared the tree is returned entirely unchanged. -/
theorem optimize_frame (solve : List ℚ → List ℚ × SolverSummary)
    (nodes : List Node) (writeCoefficients : Bool) :
    (Optimize solve nodes writeCoefficients).2.length = nodes.length ∧
    (∀ i : Nat,
      sameShape ((Optimize solve nodes writeCoefficients).2.getD i nodeDefault)
        (nodes.getD i nodeDefault)) ∧
    (∀ i : Nat, isCoeff (nodes.getD i nodeDefault) = false →
      (Optimize solve nodes writeCoefficients).2.getD i nodeDefault =
        nodes.getD i nodeDefault) ∧
    (writeCoefficients = false →
      (Optimize solve nodes writeCoefficients).2 = nodes) := by
  by_cases hc : (GetCoefficients nodes).isEmpty
  · have h2 : (Optimize solve nodes writeCoefficients).2 = nodes := by
      simp [Optimize, hc]
    rw [h2]
    exact ⟨rfl, fun i => sameShape_refl _, fun i _ => rfl, fun _ => rfl⟩
  · cases writeCoefficients with
    | false =>
        have h2 : (Optimize solve nodes false).2 = nodes := by
          simp [Optimize, hc]
        rw [h2]
        exact ⟨rfl, fun i => sameShape_refl _, fun i _ => rfl, fun _ => rfl⟩
    | true =>
        have h2 : (Optimize solve nodes true).2 =
            SetCoefficients nodes (solve (GetCoefficients nodes)).1 := by
          simp [Optimize, hc]
        rw [h2]
        refine ⟨setCoefficientsGo_length nodes _, ?_, ?_, ?_⟩
        · intro i; exact (setCoefficientsGo_getD nodes _ i).1
        · intro i hi; exact (setCoefficientsGo_getD nodes _ i).2 hi
        · intro h; exact absurd h (by decide)

/-- C6, witness: with the concrete demo solver on the three-node `Sub`
tree, the root keeps its shape, the root (not a coefficient node) is
entirely unchanged, and with the write-back flag cleared the whole tree is
returned unchanged. -/
theorem optimize_frame_witness :
    sameShape ((Optimize demoSolve treeSubXY true).2.getD 2 nodeDefault)
      (treeSubXY.getD 2 nodeDefault) ∧
    (Optimize demoSolve treeSubXY true).2.getD 2 nodeDefault =
      treeSubXY.getD 2 nodeDefault ∧
    (Optimize demoSolve treeSubXY false).2 = treeSubXY :=
  ⟨(optimize_frame demoSolve treeSubXY true).2.1 2,
   (optimize_frame demoSolve treeSubXY true).2.2.1 2 (by decide),
   (optimize_frame demoSolve treeSubXY false).2.2.2 rfl⟩

/-! Claim C5: parameter equivalence.  The key invariant: when the tail of
the parameter buffer from the cursor position on holds exactly the
coefficients of the remaining nodes, every parameter read returns the
literal node value, so evaluation with the extracted coefficient vector
coincides with evaluation without parameters. -/

/-- When the buffer tail from `idx` on lists the coefficients of the
pending nodes, the buffer read at `idx` returns the value of the first
pending coefficient node. -/
lemma getD_of_drop_cons (ps : List ℚ) (idx : Nat) (q : ℚ) (t : List ℚ)
    (h : ps.drop idx = q :: t) : ps.getD idx 0 = q := by
  have h0 := getD_drop ps idx 0 0
  rw [h] at h0
  simpa using h0.symm

/-- Advancing the invariant by one consumed coefficient. -/
lemma drop_succ_of_drop_cons (ps : List ℚ) (idx : Nat) (q : ℚ) (t : List ℚ)
    (h : ps.drop idx = q :: t) : ps.drop (idx + 1) = t := by
  rw [← List.drop_drop, h]
  rfl

/-- The setup pass is insensitive to replacing a null parameter buffer by
the coefficient vector: under the cursor invariant both runs produce the
same per-node records and the same cursor. -/
lemma setup_fold_congr (d : Dataset) (ps : List ℚ) :
    ∀ (l : List Node) (infos : List SetupInfo) (idx : Nat),
      ps.drop idx = (l.filter isCoeff).map (fun n => n.value) →
      l.foldl (setupStep d (some ps)) (infos, idx) =
        l.foldl (setupStep d none) (infos, idx) := by
  intro l
  induction l with
  | nil => intro infos idx _; rfl
  | cons n rest ih =>
      intro infos idx h
      by_cases hc : n.IsConstant
      · have hcoeff : isCoeff n = true := by simp [isCoeff, hc]
        rw [List.filter_cons_of_pos hcoeff, List.map_cons] at h
        have hval : ps.getD idx 0 = n.value := getD_of_drop_cons _ _ _ _ h
        have hnext : ps.drop (idx + 1) =
            (rest.filter isCoeff).map (fun n => n.value) :=
          drop_succ_of_drop_cons _ _ _ _ h
        have hstep : setupStep d (some ps) (infos, idx) n =
            setupStep d none (infos, idx) n := by
          simp only [setupStep, hc, hval]
        have hstate : setupStep d none (infos, idx) n =
            (infos ++ [SetupInfo.constV n.value], idx + 1) := by
          simp [setupStep, hc]
        rw [List.foldl_cons, List.foldl_cons, hstep, hstate]
        exact ih _ _ hnext
      · by_cases hv : n.IsVariable
        · have hcoeff : isCoeff n = true := by simp [isCoeff, hv]
          rw [List.filter_cons_of_pos hcoeff, List.map_cons] at h
          have hnext : ps.drop (idx + 1) =
              (rest.filter isCoeff).map (fun n => n.value) :=
            drop_succ_of_drop_cons _ _ _ _ h
          have hstep : setupStep d (some ps) (infos, idx) n =
              setupStep d none (infos, idx) n := by
            simp [setupStep, hc, hv]
          have hstate : setupStep d none (infos, idx) n =
              (infos ++ [SetupInfo.varC (d.getIndex n.hashValue)], idx + 1) := by
            simp [setupStep, hc, hv]
          rw [List.foldl_cons, List.foldl_cons, hstep, hstate]
          exact ih _ _ hnext
        · have hcoeff : isCoeff n = false := by simp [isCoeff, hc, hv]
          rw [List.filter_cons_of_neg (by simp [hcoeff])] at h
          have hstep : setupStep d (some ps) (infos, idx) n =
              setupStep d none (infos, idx) n := by
            simp [setupStep, hc, hv]
          have hstate : setupStep d none (infos, idx) n =
              (infos ++ [SetupInfo.other], idx) := by
            simp [setupStep, hc, hv]
          rw [List.foldl_cons, List.foldl_cons, hstep, hstate]
          exact ih _ _ h

/-- The parameter cursor of one batched step advances exactly on
coefficient nodes. -/
lemma stepNode_idx (ops : RealOps) (d : Dataset) (params : Option (List ℚ))
    (setup : List SetupInfo) (nodes : List Node) (sr rem : Nat)
    (st : List (List V) × Nat) (n : Node) :
    (stepNode ops d params setup nodes sr rem st n).2 =
      st.2 + (if isCoeff n then 1 else 0) := by
  cases h : n.type <;>
    simp +decide [stepNode, isCoeff, Node.IsConstant, Node.IsVariable, h]

/-- A batched step on a non-`Variable` node does not read the parameter
buffer. -/
lemma stepNode_params_irrel (ops : RealOps) (d : Dataset)
    (p1 p2 : Option (List ℚ)) (setup : List SetupInfo) (nodes : List Node)
    (sr rem : Nat) (st : List (List V) × Nat) (n : Node)
    (hv : ¬ n.type = NodeType.Variable) :
    stepNode ops d p1 setup nodes sr rem st n =
      stepNode ops d p2 setup nodes sr rem st n := by
  cases h : n.type <;> try (exact absurd h hv)
  all_goals simp only [stepNode, h]

/-- The batched pass is insensitive to replacing a null parameter buffer
by the coefficient vector, under the cursor invariant. -/
lemma batch_fold_congr (ops : RealOps) (d : Dataset) (setup : List SetupInfo)
    (nodes : List Node) (sr rem : Nat) (ps : List ℚ) :
    ∀ (l : List Node) (cols : List (List V)) (idx : Nat),
      ps.drop idx = (l.filter isCoeff).map (fun n => n.value) →
      l.foldl (stepNode ops d (some ps) setup nodes sr rem) (cols, idx) =
        l.foldl (stepNode ops d none setup nodes sr rem) (cols, idx) := by
  intro l
  induction l with
  | nil => intro cols idx _; rfl
  | cons n rest ih =>
      intro cols idx h
      by_cases hv : n.type = NodeType.Variable
      · have hcoeff : isCoeff n = true := by
          simp [isCoeff, Node.IsVariable, hv]
        rw [List.filter_cons_of_pos hcoeff, List.map_cons] at h
        have hval : ps.getD idx 0 = n.value := getD_of_drop_cons _ _ _ _ h
        have hnext : ps.drop (idx + 1) =
            (rest.filter isCoeff).map (fun n => n.value) :=
          drop_succ_of_drop_cons _ _ _ _ h
        have hstep : stepNode ops d (some ps) setup nodes sr rem (cols, idx) n =
            stepNode ops d none setup nodes sr rem (cols, idx) n := by
          simp only [stepNode, hv, hval]
        have h2 : (stepNode ops d none setup nodes sr rem (cols, idx) n).2 =
            idx + 1 := by
          rw [stepNode_idx, hcoeff]; rfl
        rw [List.foldl_cons, List.foldl_cons, hstep]
        exact ih (stepNode ops d none setup nodes sr rem (cols, idx) n).1
          (stepNode ops d none setup nodes sr rem (cols, idx) n).2
          (by rw [h2]; exact hnext)
      · have hstep := stepNode_params_irrel ops d (some ps) none setup nodes
          sr rem (cols, idx) n hv
        rw [List.foldl_cons, List.foldl_cons, hstep]
        by_cases hc : n.type = NodeType.Constant
        · have hcoeff : isCoeff n = true := by
            simp [isCoeff, Node.IsConstant, hc]
          rw [List.filter_cons_of_pos hcoeff, List.map_cons] at h
          have hnext : ps.drop (idx + 1) =
              (rest.filter isCoeff).map (fun n => n.value) :=
            drop_succ_of_drop_cons _ _ _ _ h
          have h2 : (stepNode ops d none setup nodes sr rem (cols, idx) n).2 =
              idx + 1 := by
            rw [stepNode_idx, hcoeff]; rfl
          exact ih (stepNode ops d none setup nodes sr rem (cols, idx) n).1
            (stepNode ops d none setup nodes sr rem (cols, idx) n).2
            (by rw [h2]; exact hnext)
        · have hcoeff : isCoeff n = false := by
            simp [isCoeff, Node.IsConstant, Node.IsVariable, hc, hv]
          rw [List.filter_cons_of_neg (by simp [hcoeff])] at h
          have h2 : (stepNode ops d none setup nodes sr rem (cols, idx) n).2 =
              idx := by
            rw [stepNode_idx, hcoeff]; rfl
          exact ih (stepNode ops d none setup nodes sr rem (cols, idx) n).1
            (stepNode ops d none setup nodes sr rem (cols, idx) n).2
            (by rw [h2]; exact h)

/-- The setup records with the extracted coefficient vector coincide with
the setup records without parameters. -/
lemma setupInfos_coeff_eq (d : Dataset) (nodes : List Node) :
    setupInfos d (some (GetCoefficients nodes)) nodes =
      setupInfos d none nodes :=
  congrArg Prod.fst
    (setup_fold_congr d (GetCoefficients nodes) nodes [] 0
      (by simp [GetCoefficients]))

/-- The raw batched output with the extracted coefficient vector
coincides with the raw batched output without parameters. -/
lemma rawEvaluate_coeff_eq (ops : RealOps) (nodes : List Node) (d : Dataset)
    (rg : Range) :
    rawEvaluate ops nodes d rg (some (GetCoefficients nodes)) =
      rawEvaluate ops nodes d rg none := by
  simp only [rawEvaluate, setupInfos_coeff_eq]
  have hfun : (fun (b : Nat × Nat) =>
      batchOutput ops d (some (GetCoefficients nodes))
        (setupInfos d none nodes) nodes (rg.start + b.1) b.2) =
      (fun (b : Nat × Nat) =>
        batchOutput ops d none (setupInfos d none nodes) nodes
          (rg.start + b.1) b.2) := by
    funext b
    simp only [batchOutput, batchColumns]
    rw [batch_fold_congr ops d (setupInfos d none nodes) nodes
      (rg.start + b.1) b.2 (GetCoefficients nodes) nodes [] 0
      (by simp [GetCoefficients])]
  rw [hfun]

/-- C5: evaluation with a null parameter buffer equals evaluation with
the coefficient vector extracted from the tree (one scalar per `Constant`
node and one per `Variable` weight, in node order). -/
theorem evaluate_parameter_equivalence (ops : RealOps) (nodes : List Node)
    (d : Dataset) (rg : Range) :
    Evaluate ops nodes d rg none =
      Evaluate ops nodes d rg (some (GetCoefficients nodes)) :=
  congrArg sanitize (rawEvaluate_coeff_eq ops nodes d rg).symm

/-! Claim C10: the parameter cursor invariant of the batched pass. -/

/-- Every batched step appends exactly one column to the scratch list. -/
lemma stepNode_cols_extend (ops : RealOps) (d : Dataset)
    (params : Option (List ℚ)) (setup : List SetupInfo) (nodes : List Node)
    (sr rem : Nat) (st : List (List V) × Nat) (n : Node) :
    ∃ c, (stepNode ops d params setup nodes sr rem st n).1 = st.1 ++ [c] := by
  cases h : n.type <;> simp only [stepNode, h] <;> exact ⟨_, rfl⟩

/-- Folding the batched step only appends columns: previously built
columns are never rewritten. -/
lemma foldl_cols_extend (ops : RealOps) (d : Dataset)
    (params : Option (List ℚ)) (setup : List SetupInfo) (nodes : List Node)
    (sr rem : Nat) :
    ∀ (l : List Node) (st : List (List V) × Nat),
      ∃ t, (l.foldl (stepNode ops d params setup nodes sr rem) st).1 =
        st.1 ++ t := by
  intro l
  induction l with
  | nil => intro st; exact ⟨[], by simp⟩
  | cons n rest ih =>
      intro st
      obtain ⟨c, hc⟩ := stepNode_cols_extend ops d params setup nodes sr rem st n
      obtain ⟨t, ht⟩ := ih (stepNode ops d params setup nodes sr rem st n)
      exact ⟨c :: t, by rw [List.foldl_cons] at *; rw [ht, hc]; simp⟩

/-- The scratch list grows by exactly one column per node processed. -/
lemma foldl_cols_length (ops : RealOps) (d : Dataset)
    (params : Option (List ℚ)) (setup : List SetupInfo) (nodes : List Node)
    (sr rem : Nat) :
    ∀ (l : List Node) (st : List (List V) × Nat),
      (l.foldl (stepNode ops d params setup nodes sr rem) st).1.length =
        st.1.length + l.length := by
  intro l
  induction l with
  | nil => intro st; simp
  | cons n rest ih =>
      intro st
      obtain ⟨c, hc⟩ := stepNode_cols_extend ops d params setup nodes sr rem st n
      rw [List.foldl_cons, ih, hc]
      simp
      omega

/-- The parameter cursor after folding a list of nodes advances by the
number of coefficient (`Constant` or `Variable`) nodes in the list. -/
lemma foldl_idx_countP (ops : RealOps) (d : Dataset)
    (params : Option (List ℚ)) (setup : List SetupInfo) (nodes : List Node)
    (sr rem : Nat) :
    ∀ (l : List Node) (st : List (List V) × Nat),
      (l.foldl (stepNode ops d params setup nodes sr rem) st).2 =
        st.2 + l.countP isCoeff := by
  intro l
  induction l with
  | nil => intro st; simp
  | cons n rest ih =>
      intro st
      rw [List.foldl_cons, ih, stepNode_idx, List.countP_cons]
      by_cases h : isCoeff n
      · simp [h]
        omega
      · simp [h]

/-- C10: in every batch (any batch offset, any remaining-row count) the
parameter cursor seen by node `i` equals the number of `Constant` and
`Variable` nodes before position `i`, and a `Variable` node at position
`i` therefore reads exactly the parameter slot with that index as its
weight: its scratch column is the dataset column scaled by
`parameters[countP isCoeff (take i nodes)]`.  Both facts are independent
of the batch, so the slot consumed by each `Variable` is identical across
all batches. -/
theorem evaluate_cursor_slots (ops : RealOps) (d : Dataset) (ps : List ℚ)
    (setup : List SetupInfo) (nodes : List Node) (sr rem : Nat) (i : Nat)
    (hi : i < nodes.length)
    (hv : (nodes.getD i nodeDefault).type = NodeType.Variable) :
    cursorBeforeNode ops d (some ps) setup nodes sr rem i =
      (nodes.take i).countP isCoeff ∧
    colOfNode ops d (some ps) setup nodes sr rem i =
      (List.range rem).map (fun r =>
        some (ps.getD ((nodes.take i).countP isCoeff) 0 *
          d.values (varColOf setup i) (sr + r))) := by
  have hcursor : cursorBeforeNode ops d (some ps) setup nodes sr rem i =
      (nodes.take i).countP isCoeff := by
    unfold cursorBeforeNode
    rw [foldl_idx_countP]
    simp
  refine ⟨hcursor, ?_⟩
  have hlen : ((nodes.take i).foldl
      (stepNode ops d (some ps) setup nodes sr rem) ([], 0)).1.length = i := by
    rw [foldl_cols_length]
    simp [List.length_take]
    omega
  have hdrop : nodes.drop i = nodes[i] :: nodes.drop (i + 1) :=
    (List.getElem_cons_drop nodes i hi).symm
  have hgetd : nodes[i] = nodes.getD i nodeDefault :=
    (List.getD_eq_getElem nodes nodeDefault hi).symm
  unfold colOfNode batchColumns
  have hsplit2 : List.foldl (stepNode ops d (some ps) setup nodes sr rem)
      ([], 0) (nodes.take i ++ nodes.drop i) =
      List.foldl (stepNode ops d (some ps) setup nodes sr rem) ([], 0) nodes := by
    rw [List.take_append_drop]
  rw [← hsplit2, List.foldl_append, hdrop, List.foldl_cons]
  set st := (nodes.take i).foldl
    (stepNode ops d (some ps) setup nodes sr rem) ([], 0) with hst
  have hidx : st.2 = (nodes.take i).countP isCoeff := by
    rw [hst, foldl_idx_countP]
    simp
  have hstep : stepNode ops d (some ps) setup nodes sr rem st nodes[i] =
      (st.1 ++ [(List.range rem).map (fun r =>
        some (ps.getD st.2 0 * d.values (varColOf setup st.1.length)
          (sr + r)))], st.2 + 1) := by
    rw [hgetd]
    simp only [stepNode, hv]
  rw [hstep]
  obtain ⟨t, ht⟩ := foldl_cols_extend ops d (some ps) setup nodes sr rem
    (nodes.drop (i + 1))
    (st.1 ++ [(List.range rem).map (fun r =>
      some (ps.getD st.2 0 * d.values (varColOf setup st.1.length)
        (sr + r)))], st.2 + 1)
  rw [ht]
  have hcol : (st.1 ++ [(List.range rem).map (fun r =>
      some (ps.getD st.2 0 * d.values (varColOf setup st.1.length)
        (sr + r)))] ++ t).getD i [] =
      (List.range rem).map (fun r =>
        some (ps.getD st.2 0 * d.values (varColOf setup st.1.length)
          (sr + r))) := by
    have hsome : (st.1 ++ [(List.range rem).map (fun r =>
        some (ps.getD st.2 0 * d.values (varColOf setup st.1.length)
          (sr + r)))] ++ t)[i]? =
        some ((List.range rem).map (fun r =>
          some (ps.getD st.2 0 * d.values (varColOf setup st.1.length)
            (sr + r)))) := by
      rw [List.append_assoc,
        List.getElem?_append_right (by omega : st.1.length ≤ i), hlen]
      simp
    rw [List.getD_eq_getElem?_getD, hsome]
    rfl
  rw [hcol, hidx, hlen]

/-- C10, witness: on the two-node tree `[Constant(7), Variable(x)]` with
parameter buffer `[7, 2]`, batch offset 0 and two remaining rows, the
cursor seen by the `Variable` at position 1 equals the one coefficient
node before it and its column is the dataset column scaled by slot 1 of
the buffer. -/
theorem evaluate_cursor_slots_witness :
    cursorBeforeNode opsNone demoDataset (some [7, 2])
      (setupInfos demoDataset (some [7, 2]) treeConstVar) treeConstVar 0 2 1 =
      (treeConstVar.take 1).countP isCoeff ∧
    colOfNode opsNone demoDataset (some [7, 2])
      (setupInfos demoDataset (some [7, 2]) treeConstVar) treeConstVar 0 2 1 =
      (List.range 2).map (fun r =>
        some (([7, 2] : List ℚ).getD ((treeConstVar.take 1).countP isCoeff) 0 *
          demoDataset.values
            (varColOf (setupInfos demoDataset (some [7, 2]) treeConstVar) 1)
            (0 + r))) :=
  evaluate_cursor_slots opsNone demoDataset [7, 2]
    (setupInfos demoDataset (some [7, 2]) treeConstVar) treeConstVar 0 2 1
    (by decide) (by decide)

end Operon
